import Mathlib

/-!
Verification of the openluffy orchestration UI against its design
specification.  The definitions below are shallow embeddings of the
JavaScript/JSX source under `src/`; each is translated from the named
source function.  Theorems at the end of the file settle the spec claims.
-/

namespace OpenLuffy

/-! ## Pipeline Status Aggregator

`getStageStatus` from `src/openluffy-ui/src/components/CreateCustomerWizard.jsx`
(lines 635-655).  It maps a pipeline summary `{status, conclusion}` onto the
fixed three-stage model `{test, build, deploy}`.  The JS function is a chain
of `if` statements falling through to a final all-idle return. -/

/-- The state the UI assigns to one of the three fixed stages. -/
inductive StageState where
  | idle
  | success
  | failure
  | running
deriving DecidableEq, Repr

/-- The summary object read by `getStageStatus`: the `status` and
`conclusion` fields of the latest CI run, both plain strings in the JS. -/
structure PipelineSummary where
  status : String
  conclusion : String
deriving DecidableEq, Repr

/-- The fixed three-stage model `{test, build, deploy}`. -/
structure StageModel where
  test : StageState
  build : StageState
  deploy : StageState
deriving DecidableEq, Repr

/-- Shallow embedding of `getStageStatus` (CreateCustomerWizard.jsx 635-655):
the first `if` returns all-idle for `no_runs`/`error`; a `completed` status
with conclusion `success` gives all-success, with conclusion `failure` gives
`{test: failure, build: idle, deploy: idle}` (the source comment reads
"Assume failure in test stage for now"); `in_progress` gives
`{test: success, build: running, deploy: idle}`; everything else falls
through to the final all-idle return. -/
def getStageStatus (s : PipelineSummary) : StageModel :=
  if s.status = "no_runs" ∨ s.status = "error" then
    ⟨.idle, .idle, .idle⟩
  else if s.status = "completed" ∧ s.conclusion = "success" then
    ⟨.success, .success, .success⟩
  else if s.status = "completed" ∧ s.conclusion = "failure" then
    ⟨.failure, .idle, .idle⟩
  else if s.status = "in_progress" then
    ⟨.success, .running, .idle⟩
  else
    ⟨.idle, .idle, .idle⟩

/-- Names of the three fixed stages, in display order. -/
inductive StageName where
  | test
  | build
  | deploy
deriving DecidableEq, Repr

/-- The per-stage data of the source CI run, as the spec's stage-inference
heuristic would need it: whether each of the three stages was green.
(The JS `getStageStatus` never receives this data; it only sees the
aggregate `{status, conclusion}` pair.) -/
structure SourceRunStages where
  testGreen : Bool
  buildGreen : Bool
  deployGreen : Bool
deriving DecidableEq, Repr

/-- The first non-green stage of the source run, in test → build → deploy
order, as the spec's heuristic describes it. -/
def firstNonGreen (r : SourceRunStages) : Option StageName :=
  if !r.testGreen then some .test
  else if !r.buildGreen then some .build
  else if !r.deployGreen then some .deploy
  else none

/-- The stage the three-stage model marks as failed: the first stage (in
test → build → deploy order) whose state is `failure`, if any. -/
def markedFailed (m : StageModel) : Option StageName :=
  if m.test = .failure then some .test
  else if m.build = .failure then some .build
  else if m.deploy = .failure then some .deploy
  else none

/-- A source run in which the tests were green but the build failed. -/
def mixedFailureRun : SourceRunStages := ⟨true, false, true⟩

/-! ## Provisioning status polling client

`fetchStatus` from
`src/openluffy-ui/src/components/CustomerProvisioningStatus.jsx` (lines
15-33).  After fetching the job snapshot it computes
`allComplete = data.steps.every(s => s.status === 'success' || s.status === 'error')`
and reports the job complete exactly when that is true. -/

/-- Status of a provisioning/progress step, the four string values used
throughout the UI. -/
inductive StepStatus where
  | pending
  | running
  | success
  | error
deriving DecidableEq, Repr

/-- A step as displayed by the UI: `{message, status}`.  (The source objects
also carry a wall-clock `timestamp`, which no claim concerns and which is
omitted here.) -/
structure ProgressStep where
  message : String
  status : StepStatus
deriving DecidableEq, Repr

/-- Shallow embedding of the `allComplete` computation in `fetchStatus`
(CustomerProvisioningStatus.jsx 25-27): `every` step must be `success` or
`error` for the client to report the job complete. -/
def allComplete (steps : List ProgressStep) : Bool :=
  steps.all (fun s => s.status == .success || s.status == .error)

/-- Modelled from the spec's words for claim comparison: a provisioning job
is terminal once all steps succeed or any step fails. -/
def terminalJob (steps : List ProgressStep) : Prop :=
  (∀ s ∈ steps, s.status = .success) ∨ (∃ s ∈ steps, s.status = .error)

instance (steps : List ProgressStep) : Decidable (terminalJob steps) :=
  inferInstanceAs (Decidable
    ((∀ s ∈ steps, s.status = .success) ∨ (∃ s ∈ steps, s.status = .error)))

/-- The snapshot from the spec's failure scenario: namespace creation
(step 3) failed, steps 4-5 remain pending. -/
def errorPendingSnapshot : List ProgressStep :=
  [⟨"Creating customer record", .success⟩,
   ⟨"Pushing CI/CD template", .success⟩,
   ⟨"Creating namespaces", .error⟩,
   ⟨"Creating ArgoCD applications", .pending⟩,
   ⟨"Saving integrations", .pending⟩]

/-! ## Customer id derivation

`handleNameChange` from `src/openluffy-ui/src/components/CreateCustomerWizard.jsx`
(lines 30-44, identical in `src/unnamed/part_007`):

    const id = name.toLowerCase()
      .replace(regex [^a-z0-9\s-] global, '')
      .replace(regex \s+ global, '-')
      .replace(regex "one or more hyphens" global, '-')
      .replace(regex ^-|-$ global, '')

Strings are modelled as their lists of characters; `toLowerCase` is modelled
by mapping `Char.toLower` over the code points (the same lowering is used on
both the code side and the spec side, so the comparison below does not
depend on the details of Unicode case mapping). -/

/-- The character class of the JavaScript `\s` escape: tab through carriage
return, space, and the Unicode space separators / BOM that JS regexes treat
as whitespace. -/
def isJsWhitespace (c : Char) : Bool :=
  (9 ≤ c.val && c.val ≤ 13) || c.val == 32 || c.val == 0xa0 ||
  c.val == 0x1680 || (0x2000 ≤ c.val && c.val ≤ 0x200a) ||
  c.val == 0x2028 || c.val == 0x2029 || c.val == 0x202f ||
  c.val == 0x205f || c.val == 0x3000 || c.val == 0xfeff

/-- Characters kept by `.replace(regex [^a-z0-9\s-] global, '')`: lowercase ASCII
letters, digits, JS whitespace, and the hyphen. -/
def isKeptChar (c : Char) : Bool :=
  ('a' ≤ c && c ≤ 'z') || ('0' ≤ c && c ≤ '9') || isJsWhitespace c || c == '-'

/-- `.replace(regex \s+ global, '-')`: each maximal run of whitespace becomes a single
hyphen.  The flag records whether the previous character was whitespace (the
run is still open). -/
def wsRunsAux : Bool → List Char → List Char
  | _, [] => []
  | prevWs, c :: rest =>
    if isJsWhitespace c then
      if prevWs then wsRunsAux true rest
      else '-' :: wsRunsAux true rest
    else c :: wsRunsAux false rest

/-- `.replace(regex "one or more hyphens" global, '-')`: each maximal run of hyphens becomes a single
hyphen. -/
def collapseHyphensAux : Bool → List Char → List Char
  | _, [] => []
  | prevH, c :: rest =>
    if c = '-' then
      if prevH then collapseHyphensAux true rest
      else '-' :: collapseHyphensAux true rest
    else c :: collapseHyphensAux false rest

/-- Drop a single leading hyphen, as the `^-` alternative of
`.replace(regex ^-|-$ global, '')` does. -/
def dropLeadingHyphen : List Char → List Char
  | [] => []
  | c :: rest => if c = '-' then rest else c :: rest

/-- Drop a single trailing hyphen, as the `-$` alternative of
`.replace(regex ^-|-$ global, '')` does. -/
def dropTrailingHyphen (l : List Char) : List Char :=
  (dropLeadingHyphen l.reverse).reverse

/-- `.replace(regex ^-|-$ global, '')`: the regex engine removes at most one leading
and at most one trailing hyphen in a single pass. -/
def stripEdgeHyphens (l : List Char) : List Char :=
  dropTrailingHyphen (dropLeadingHyphen l)

/-- The id computed by `handleNameChange`, over code-point lists. -/
def deriveCustomerId (name : List Char) : List Char :=
  stripEdgeHyphens
    (collapseHyphensAux false
      (wsRunsAux false ((name.map Char.toLower).filter isKeptChar)))

/-- The id computed by `handleNameChange`, over `String`. -/
def handleNameChangeId (name : String) : String :=
  ⟨deriveCustomerId name.data⟩

/-- Modelled from the spec's words: "stripping leading and trailing
hyphens", i.e. removing every hyphen at either edge. -/
def stripAllEdgeHyphens (l : List Char) : List Char :=
  ((l.dropWhile (fun c => c = '-')).reverse.dropWhile (fun c => c = '-')).reverse

/-- Modelled from the spec's words (claim C6): lowercase, delete every
character that is not a lowercase letter, digit, whitespace or hyphen,
replace each maximal whitespace run with a single hyphen, collapse
consecutive hyphens, and strip leading and trailing hyphens. -/
def specCustomerId (name : List Char) : List Char :=
  stripAllEdgeHyphens
    (collapseHyphensAux false
      (wsRunsAux false ((name.map Char.toLower).filter isKeptChar)))

/-- The spec-side id over `String`. -/
def specNameId (name : String) : String :=
  ⟨specCustomerId name.data⟩

/-- No two adjacent characters of the list are both hyphens. -/
def noAdjacentHyphens (l : List Char) : Prop :=
  l.Chain' (fun a b => ¬(a = '-' ∧ b = '-'))

/-! ## Creation-progress state updates

`addProgressStep` / `updateProgressStep` (CreateCustomerWizard.jsx 108-120)
and the operation sequence issued by `handleCreate` (lines 123-204).
`addProgressStep(message, status)` appends `{message, status}` to the
progress list; `updateProgressStep(index, status)` replaces the status of
the entry at `index`, keeping its message (`{...updated[index], status}`).
All calls in `handleCreate` pass an in-range index, so the embedding makes
an out-of-range update a no-op. -/

/-- One mutation of the `creationProgress` list. -/
inductive ProgressOp where
  | add (message : String) (status : StepStatus)
  | update (index : Nat) (status : StepStatus)
deriving DecidableEq, Repr

/-- `updated[index] = { ...updated[index], status }`: replace the status at
`index`, keep the message. -/
def setStepStatus : List ProgressStep → Nat → StepStatus → List ProgressStep
  | [], _, _ => []
  | s :: rest, 0, st => ⟨s.message, st⟩ :: rest
  | s :: rest, n + 1, st => s :: setStepStatus rest n st

/-- Apply one progress operation to the current list. -/
def applyProgressOp (state : List ProgressStep) : ProgressOp → List ProgressStep
  | .add m st => state ++ [⟨m, st⟩]
  | .update i st => setStepStatus state i st

/-- The message of the GitHub step depends on whether the repo pre-check
found an existing repository. -/
def githubStepMessage (repoExists : Bool) : String :=
  if repoExists then "Verifying GitHub repository..."
  else "Creating GitHub repository from template..."

/-- The operations `handleCreate` issues on the path where every step
succeeds, in program order. -/
def happyOps (repoExists : Bool) : List ProgressOp :=
  [.add "Validating configuration..." .running,
   .update 0 .success,
   .add (githubStepMessage repoExists) .running,
   .update 1 .success,
   .add "Creating Kubernetes namespaces (dev, preprod, prod)..." .running,
   .update 2 .success,
   .add "Creating ArgoCD applications..." .running,
   .update 3 .success,
   .add "Initializing CI/CD pipelines..." .running,
   .update 4 .success,
   .add "Saving integration configurations..." .running,
   .update 5 .success,
   .add "Customer created successfully! 🎉" .success]

/-- The `catch` block appends a single error step. -/
def errorOp (errMsg : String) : ProgressOp :=
  .add ("Error: " ++ errMsg) .error

/-- The operations issued when the backend rejects the create request
(`!response.ok`): the GitHub step is marked `error` and the `catch` block
appends the error step. -/
def rejectedOps (repoExists : Bool) (errMsg : String) : List ProgressOp :=
  (happyOps repoExists).take 3 ++ [.update 1 .error, errorOp errMsg]

/-- The operation sequences a single `handleCreate` run can issue: the full
success path; the success path interrupted by an exception at any await
point, after which the `catch` block appends an error step (every
interruption point is some prefix of the success path's operations); or the
explicit rejection path. -/
def HandleCreateRun (repoExists : Bool) (errMsg : String)
    (ops : List ProgressOp) : Prop :=
  ops = happyOps repoExists ∨
  (∃ n, n ≤ 13 ∧ ops = (happyOps repoExists).take n ++ [errorOp errMsg]) ∨
  ops = rejectedOps repoExists errMsg

/-- The sequence of `creationProgress` states a poll of the component could
observe: the initial empty list followed by the state after each operation. -/
def progressStates (ops : List ProgressOp) : List (List ProgressStep) :=
  ops.scanl applyProgressOp []

/-- Index of the highest step whose status is not `pending`, if any. -/
def highestNonPending : List StepStatus → Option Nat
  | [] => none
  | st :: rest =>
    match highestNonPending rest with
    | some n => some (n + 1)
    | none => if st = .pending then none else some 0

/-- Rank an optional index so that `none < some 0 < some 1 < ...`. -/
def optRank : Option Nat → Nat
  | none => 0
  | some n => n + 1

/-- Append-only between two observed states: no step disappears and every
existing step keeps its message. -/
def stepOKmsg (s t : List ProgressStep) : Prop :=
  s.length ≤ t.length ∧
  ∀ i, i < s.length → (t[i]?).map (·.message) = (s[i]?).map (·.message)

/-- A step that was `success` is never set back to `pending` or `running`. -/
def noSuccessRegress (a b : List StepStatus) : Prop :=
  ∀ i, i < a.length → a[i]? = some .success →
    ¬(b[i]? = some .pending ∨ b[i]? = some .running)

/-- Status-level part of the progress invariant: no regression from
`success`, and the highest non-pending index does not decrease. -/
def statusOKS (a b : List StepStatus) : Prop :=
  noSuccessRegress a b ∧
  optRank (highestNonPending a) ≤ optRank (highestNonPending b)

instance (a b : List StepStatus) : Decidable (noSuccessRegress a b) :=
  inferInstanceAs (Decidable (∀ i, i < a.length → a[i]? = some .success →
    ¬(b[i]? = some .pending ∨ b[i]? = some .running)))

instance (a b : List StepStatus) : Decidable (statusOKS a b) :=
  inferInstanceAs (Decidable (noSuccessRegress a b ∧
    optRank (highestNonPending a) ≤ optRank (highestNonPending b)))

/-- The per-poll invariant claimed for consecutive observed progress
states. -/
def stepOK (s t : List ProgressStep) : Prop :=
  stepOKmsg s t ∧ statusOKS (s.map (·.status)) (t.map (·.status))

/-- Consecutive-pair relation along a list, by structural recursion (used
to decide `List.Chain'` goals on concrete traces). -/
def chainRel {α : Type} (R : α → α → Prop) : List α → Prop
  | [] => True
  | [_] => True
  | a :: b :: rest => R a b ∧ chainRel R (b :: rest)

instance chainRelDecidable {α : Type} (R : α → α → Prop) [DecidableRel R] :
    ∀ l : List α, Decidable (chainRel R l)
  | [] => isTrue trivial
  | [_] => isTrue trivial
  | _ :: b :: rest =>
    @instDecidableAnd _ _ _ (chainRelDecidable R (b :: rest))

/-- Status-level projection of a progress operation (messages dropped). -/
inductive StatusOp where
  | add (st : StepStatus)
  | update (i : Nat) (st : StepStatus)
deriving DecidableEq, Repr

/-- Status-level `setStepStatus`. -/
def setStatusAt : List StepStatus → Nat → StepStatus → List StepStatus
  | [], _, _ => []
  | _ :: rest, 0, st => st :: rest
  | a :: rest, n + 1, st => a :: setStatusAt rest n st

/-- Status-level `applyProgressOp`. -/
def applyStatusOp (a : List StepStatus) : StatusOp → List StepStatus
  | .add st => a ++ [st]
  | .update i st => setStatusAt a i st

/-- Forget the message of a progress operation. -/
def projOp : ProgressOp → StatusOp
  | .add _ st => .add st
  | .update i st => .update i st

/-- The status-level operations of the success path (messages dropped). -/
def happyStatusOps : List StatusOp :=
  [.add .running, .update 0 .success,
   .add .running, .update 1 .success,
   .add .running, .update 2 .success,
   .add .running, .update 3 .success,
   .add .running, .update 4 .success,
   .add .running, .update 5 .success,
   .add .success]

/-! ## Promotion monitoring

`DeploymentProgress` from
`src/openluffy-ui/src/components/DeploymentProgress.jsx` and `handleApprove`
from `src/unnamed/part_002` (PendingApprovals).

The `useEffect` body runs once per mount (dependency `[customerId]`).  Its
`setTimeout` callback closes over the `status` binding of the render in
which the effect ran — the mount render, where `status` is `'initiating'`.
The guard `status === 'deploying' || status === 'queued' || status ===
'waiting'` therefore tests that captured mount-time value, not the current
state; this stale closure is modelled explicitly by
`capturedStatusAtMount`. -/

/-- The `status` state values of `DeploymentProgress`. -/
inductive DeployStatus where
  | initiating
  | waiting
  | queued
  | deploying
  | success
  | failed
  | timeout
deriving DecidableEq, Repr

/-- What one poll of the pipeline endpoint observed. -/
inductive PollResult where
  | fetchFailed
  | noRuns
  | latestRun (status conclusion : String)
deriving DecidableEq, Repr

/-- An event acting on the monitoring state: a completed poll, or the
5-minute (300000 ms) `setTimeout` callback firing. -/
inductive MonitorEvent where
  | poll (r : PollResult)
  | timeoutFired
deriving DecidableEq, Repr

/-- Monitoring state: the displayed `status`, and whether the polling
interval is still active (the timeout callback calls `clearInterval`). -/
structure MonitorState where
  status : DeployStatus
  pollingActive : Bool
deriving DecidableEq, Repr

/-- The value of the `status` binding captured by the effect closure at
mount: `'initiating'` (the `useState` initial value). -/
def capturedStatusAtMount : DeployStatus := .initiating

/-- `pollPipeline`'s effect on the displayed status (DeploymentProgress.jsx
11-44): completed runs set `success`/`failed`, `in_progress` sets
`deploying`, `queued` sets `queued`, an empty run list sets `waiting`; a
fetch error and any other run status leave the status unchanged. -/
def pollPipelineStep (s : DeployStatus) (r : PollResult) : DeployStatus :=
  match r with
  | .fetchFailed => s
  | .noRuns => .waiting
  | .latestRun st c =>
    if st = "completed" then
      if c = "success" then .success else .failed
    else if st = "in_progress" then .deploying
    else if st = "queued" then .queued
    else s

/-- One monitoring event (DeploymentProgress.jsx 46-61): a poll runs only
while the interval is active; the timeout callback clears the interval and
sets `'timeout'` only if the stale captured status is `deploying`, `queued`
or `waiting`. -/
def monitorStep (s : MonitorState) : MonitorEvent → MonitorState
  | .poll r => if s.pollingActive then ⟨pollPipelineStep s.status r, s.pollingActive⟩ else s
  | .timeoutFired =>
    ⟨if capturedStatusAtMount = .deploying ∨ capturedStatusAtMount = .queued ∨
        capturedStatusAtMount = .waiting
      then .timeout else s.status,
     false⟩

/-- The monitoring state at mount: `useState('initiating')`, polling
active. -/
def monitorStart : MonitorState := ⟨.initiating, true⟩

/-- The monitoring state after a sequence of events. -/
def runMonitor (events : List MonitorEvent) : MonitorState :=
  events.foldl monitorStep monitorStart

/-- The scenario in which every poll observes an `in_progress` run and the
5-minute bound then elapses. -/
def timeoutScenario : List MonitorEvent :=
  [.poll (.latestRun "in_progress" ""), .timeoutFired]

/-- `handleApprove` from `src/unnamed/part_002` (lines 33-57): if the
operator confirms and the promote-to-prod POST returns ok, the component
mounts `DeploymentProgress` for the customer (state `monitorStart`); a
declined confirm or a failed response mounts nothing. -/
def handleApprove (confirmed responseOk : Bool) (customerId : String) :
    Option (String × MonitorState) :=
  if !confirmed then none
  else if responseOk then some (customerId, monitorStart)
  else none

/-! ## Tenant deletion

`handleDeleteCustomer` and the confirm-button guard from
`src/openluffy-ui/src/components/SettingsPage.jsx` (lines 27-77 and
282-288), plus the rendering of the per-error list items (lines 249-266). -/

/-- The selected customer (`activeCustomer`). -/
structure Customer where
  id : String
deriving DecidableEq, Repr

/-- The parsed body of the DELETE response: `{success, deleted, errors}`.
The per-resource payloads are modelled as opaque strings. -/
structure DeleteResponse where
  success : Bool
  deleted : List String
  errors : List String
deriving DecidableEq, Repr

/-- The DELETE request issued:
`/customers/{id}?confirm={id}&delete_repo=false`. -/
structure DeleteRequest where
  customerId : String
  confirm : String
  deleteRepo : Bool
deriving DecidableEq, Repr

/-- The `deleteResult` state the component stores for display. -/
structure DeleteResult where
  success : Bool
  message : String
  errors : Option (List String)
  details : Option (List String)
deriving DecidableEq, Repr

/-- Shallow embedding of `handleDeleteCustomer`: no selected customer or a
mismatched confirmation issues no request; otherwise the DELETE request is
sent with `confirm` set to the customer id, and the response populates
`deleteResult` — success stores the per-resource `deleted` details, failure
stores the response's `errors` list, and a thrown fetch/parse error stores
only its message.  Returns the request issued (if any) and the stored
result. -/
def handleDeleteCustomer (activeCustomer : Option Customer)
    (deleteConfirmation : String)
    (fetchOutcome : Except String DeleteResponse) :
    Option DeleteRequest × Option DeleteResult :=
  match activeCustomer with
  | none => (none, none)
  | some c =>
    if deleteConfirmation ≠ c.id then (none, none)
    else
      let req : DeleteRequest := ⟨c.id, c.id, false⟩
      match fetchOutcome with
      | .error e => (some req, some ⟨false, e, none, none⟩)
      | .ok r =>
        if r.success then
          (some req, some ⟨true, "Customer deleted successfully", none, some r.deleted⟩)
        else
          (some req, some ⟨false, "Delete failed with errors", some r.errors, none⟩)

/-- The `<li>` items rendered for a stored delete result
(SettingsPage.jsx 252-257): one item per entry of `errors`, none when the
field is absent. -/
def renderedErrorItems (r : DeleteResult) : List String :=
  match r.errors with
  | none => []
  | some es => es

/-- The confirm-button guard (SettingsPage.jsx 285): enabled only when the
typed confirmation equals the active customer's id and no delete is in
flight. -/
def deleteButtonEnabled (activeId deleteConfirmation : String)
    (deleteInProgress : Bool) : Bool :=
  deleteConfirmation == activeId && !deleteInProgress

/-! ## Theorems about the stage mapping -/

/-- C1 (counterexample): a source run whose first non-green stage is
`build` (tests green, build failed), while `getStageStatus` on the
corresponding `completed`/`failure` summary marks `test` as the failed
stage — the marked stage is not the first non-green stage of the source
run's per-stage data. -/
theorem stage_failed_not_first_nonGreen :
    firstNonGreen mixedFailureRun = some StageName.build ∧
    markedFailed (getStageStatus ⟨"completed", "failure"⟩) = some StageName.test ∧
    markedFailed (getStageStatus ⟨"completed", "failure"⟩) ≠ firstNonGreen mixedFailureRun := by
  refine ⟨by decide, by decide, by decide⟩

/-- C1 (amended): for every summary with status `completed` and conclusion
`failure`, the three-stage model is the constant
`{test: failure, build: idle, deploy: idle}` — the stage marked failed is
always `test`, the first stage, independent of the source run's per-stage
data. -/
theorem stage_failure_marks_test (s : PipelineSummary)
    (h1 : s.status = "completed") (h2 : s.conclusion = "failure") :
    getStageStatus s = ⟨.failure, .idle, .idle⟩ ∧
    markedFailed (getStageStatus s) = some StageName.test := by
  obtain ⟨st, co⟩ := s
  dsimp at h1 h2
  subst h1; subst h2
  exact ⟨by decide, by decide⟩

theorem stage_failure_marks_test_witness :
    getStageStatus ⟨"completed", "failure"⟩ = ⟨.failure, .idle, .idle⟩ ∧
    markedFailed (getStageStatus ⟨"completed", "failure"⟩) = some StageName.test :=
  stage_failure_marks_test ⟨"completed", "failure"⟩ rfl rfl

/-- C7: a summary with status `completed` and conclusion `success` maps to
all three stages `success`. -/
theorem stage_success_all_success (s : PipelineSummary)
    (h1 : s.status = "completed") (h2 : s.conclusion = "success") :
    getStageStatus s = ⟨.success, .success, .success⟩ := by
  obtain ⟨st, co⟩ := s
  dsimp at h1 h2
  subst h1; subst h2
  decide

theorem stage_success_all_success_witness :
    getStageStatus ⟨"completed", "success"⟩ = ⟨.success, .success, .success⟩ :=
  stage_success_all_success ⟨"completed", "success"⟩ rfl rfl

/-- C8: a summary with status `in_progress` maps to exactly
`{test: success, build: running, deploy: idle}`, whatever the conclusion
field holds. -/
theorem stage_in_progress_model (s : PipelineSummary)
    (h1 : s.status = "in_progress") :
    getStageStatus s = ⟨.success, .running, .idle⟩ := by
  obtain ⟨st, co⟩ := s
  dsimp at h1
  subst h1
  simp [getStageStatus,
    show ("in_progress" : String) ≠ "no_runs" by decide,
    show ("in_progress" : String) ≠ "error" by decide,
    show ("in_progress" : String) ≠ "completed" by decide]

theorem stage_in_progress_model_witness :
    getStageStatus ⟨"in_progress", "neutral"⟩ = ⟨.success, .running, .idle⟩ :=
  stage_in_progress_model ⟨"in_progress", "neutral"⟩ rfl

/-- C10: the stage mapping is total — every summary that is neither a
`completed` run with conclusion `success` or `failure` nor an `in_progress`
run (this covers `completed`/`cancelled`, `no_runs`, `error` and `queued`)
yields the all-idle model. -/
theorem stage_mapping_total_idle (s : PipelineSummary)
    (h1 : s.status ≠ "completed" ∨ (s.conclusion ≠ "success" ∧ s.conclusion ≠ "failure"))
    (h2 : s.status ≠ "in_progress") :
    getStageStatus s = ⟨.idle, .idle, .idle⟩ := by
  unfold getStageStatus
  split_ifs with a b c
  · rfl
  · rcases h1 with h | h
    · exact absurd b.1 h
    · exact absurd b.2 h.1
  · rcases h1 with h | h
    · exact absurd c.1 h
    · exact absurd c.2 h.2
  · rfl

theorem stage_mapping_total_idle_witness :
    getStageStatus ⟨"queued", "neutral"⟩ = ⟨.idle, .idle, .idle⟩ ∧
    getStageStatus ⟨"completed", "cancelled"⟩ = ⟨.idle, .idle, .idle⟩ :=
  ⟨stage_mapping_total_idle ⟨"queued", "neutral"⟩ (Or.inl (by decide)) (by decide),
   stage_mapping_total_idle ⟨"completed", "cancelled"⟩ (Or.inr (by decide)) (by decide)⟩

/-! ## Theorems about the provisioning completion check -/

/-- C2 (counterexample): the spec's failure snapshot — one step `error`,
later steps `pending` — is a terminal job by the spec's definition, yet
`allComplete` is `false`, so the polling client does not report it
complete. -/
theorem error_pending_terminal_not_reported :
    terminalJob errorPendingSnapshot ∧ allComplete errorPendingSnapshot = false := by
  exact ⟨by decide, by decide⟩

/-- C2 (amended): the polling client reports the job complete exactly when
every step's status is `success` or `error` — not when the job is terminal
in the spec's sense (any step failed). -/
theorem reported_complete_iff_every_step_terminal (steps : List ProgressStep) :
    allComplete steps = true ↔
      ∀ s ∈ steps, s.status = .success ∨ s.status = .error := by
  unfold allComplete
  rw [List.all_eq_true]
  constructor
  · intro h s hs
    have := h s hs
    rcases Bool.or_eq_true _ _ |>.mp this with h' | h'
    · exact Or.inl (beq_iff_eq.mp h')
    · exact Or.inr (beq_iff_eq.mp h')
  · intro h s hs
    rcases h s hs with h' | h'
    · exact Bool.or_eq_true _ _ |>.mpr (Or.inl (beq_iff_eq.mpr h'))
    · exact Bool.or_eq_true _ _ |>.mpr (Or.inr (beq_iff_eq.mpr h'))

theorem reported_complete_iff_every_step_terminal_witness :
    (allComplete errorPendingSnapshot = true ↔
      ∀ s ∈ errorPendingSnapshot, s.status = .success ∨ s.status = .error) :=
  reported_complete_iff_every_step_terminal errorPendingSnapshot

/-! ## Theorems about promotion monitoring -/

/-- One monitoring event never produces the `timeout` status: polls set
only `success`, `failed`, `deploying`, `queued` or `waiting` (or keep the
status), and the timeout callback's guard tests the stale captured
mount-time status `initiating`, which fails, so it keeps the status. -/
theorem monitorStep_status_ne_timeout (s : MonitorState) (e : MonitorEvent)
    (h : s.status ≠ .timeout) : (monitorStep s e).status ≠ .timeout := by
  cases e with
  | timeoutFired =>
    simpa [monitorStep, capturedStatusAtMount] using h
  | poll r =>
    by_cases hp : s.pollingActive
    · cases r with
      | fetchFailed => simpa [monitorStep, hp, pollPipelineStep] using h
      | noRuns => simp [monitorStep, hp, pollPipelineStep]
      | latestRun st c =>
        simp only [monitorStep, hp, if_true, pollPipelineStep]
        split_ifs <;> first | exact h | simp
    · simpa [monitorStep, hp] using h

theorem foldl_monitor_ne_timeout (events : List MonitorEvent) :
    ∀ s : MonitorState, s.status ≠ .timeout →
      (events.foldl monitorStep s).status ≠ .timeout := by
  induction events with
  | nil => intro s h; simpa using h
  | cons e rest ih =>
    intro s h
    exact ih (monitorStep s e) (monitorStep_status_ne_timeout s e h)

/-- C4 (code evaluated at the failing input): in the scenario where the
polls only ever observe an `in_progress` run and the 5-minute bound then
elapses, the monitoring state ends at `deploying` with polling stopped, not
at `timeout`; indeed no event sequence whatsoever can reach the `timeout`
status, because the timeout callback's guard compares the stale mount-time
status. -/
theorem promotion_timeout_never_reached :
    runMonitor timeoutScenario = ⟨.deploying, false⟩ ∧
    ∀ events, (runMonitor events).status ≠ .timeout :=
  ⟨by decide, fun events => foldl_monitor_ne_timeout events monitorStart (by decide)⟩

theorem promotion_timeout_never_reached_witness :
    runMonitor timeoutScenario = ⟨.deploying, false⟩ ∧
    (runMonitor timeoutScenario).status ≠ .timeout :=
  ⟨promotion_timeout_never_reached.1,
   promotion_timeout_never_reached.2 timeoutScenario⟩

/-- A single event yields status `success` only if the status already was
`success` or the event is a poll observing a latest run with status
`completed` and conclusion `success`. -/
theorem monitorStep_success_source (s : MonitorState) (e : MonitorEvent)
    (h : (monitorStep s e).status = .success) :
    s.status = .success ∨ e = .poll (.latestRun "completed" "success") := by
  cases e with
  | timeoutFired =>
    left
    simpa [monitorStep, capturedStatusAtMount] using h
  | poll r =>
    by_cases hp : s.pollingActive
    · cases r with
      | fetchFailed => exact Or.inl (by simpa [monitorStep, hp, pollPipelineStep] using h)
      | noRuns => simp [monitorStep, hp, pollPipelineStep] at h
      | latestRun st c =>
        simp only [monitorStep, hp, if_true, pollPipelineStep] at h
        split_ifs at h with h1 h2 h3 h4
        · subst h1; subst h2; exact Or.inr rfl
        · exact Or.inl h
    · exact Or.inl (by simpa [monitorStep, hp] using h)

theorem foldl_monitor_success_source (events : List MonitorEvent) :
    ∀ s : MonitorState, (events.foldl monitorStep s).status = .success →
      s.status = .success ∨
        MonitorEvent.poll (.latestRun "completed" "success") ∈ events := by
  induction events with
  | nil => intro s h; exact Or.inl (by simpa using h)
  | cons e rest ih =>
    intro s h
    rcases ih (monitorStep s e) h with h' | h'
    · rcases monitorStep_success_source s e h' with h'' | h''
      · exact Or.inl h''
      · exact Or.inr (h'' ▸ List.mem_cons_self e rest)
    · exact Or.inr (List.mem_cons_of_mem e h')

/-- C5: the monitoring state reads `success` only after some poll of the
pipeline endpoint observed a latest run with status `completed` and
conclusion `success`; an ok response to the promote-to-prod POST merely
mounts the monitor in its initial `initiating` state, which is not
`success`. -/
theorem promotion_success_only_observed :
    (∀ events, (runMonitor events).status = .success →
       MonitorEvent.poll (.latestRun "completed" "success") ∈ events) ∧
    (∀ (confirmed responseOk : Bool) (cid : String) (p : String × MonitorState),
       handleApprove confirmed responseOk cid = some p →
       p.2 = monitorStart ∧ p.2.status ≠ .success) := by
  constructor
  · intro events h
    rcases foldl_monitor_success_source events monitorStart h with h' | h'
    · exact absurd h' (by decide)
    · exact h'
  · intro confirmed responseOk cid p h
    cases confirmed with
    | false => simp [handleApprove] at h
    | true =>
      cases responseOk with
      | false => simp [handleApprove] at h
      | true =>
        rw [show handleApprove true true cid = some (cid, monitorStart) from rfl] at h
        injection h with h
        subst h
        exact ⟨rfl, fun hh => DeployStatus.noConfusion hh⟩

theorem promotion_success_only_observed_witness :
    MonitorEvent.poll (.latestRun "completed" "success") ∈
      ([.poll (.latestRun "completed" "success")] : List MonitorEvent) ∧
    (("acme", monitorStart) : String × MonitorState).2 = monitorStart ∧
    (("acme", monitorStart) : String × MonitorState).2.status ≠ .success :=
  ⟨promotion_success_only_observed.1 [.poll (.latestRun "completed" "success")] (by decide),
   promotion_success_only_observed.2 true true "acme" ("acme", monitorStart) rfl⟩

/-! ## Theorems about tenant deletion -/

/-- C9: a DELETE request is issued only when the typed confirmation equals
the selected customer's id (both in the handler and via the confirm-button
guard), and it carries `confirm = id`; a `success = true` response stores
the per-resource `deleted` details for display, and a `success = false`
response stores the response's `errors` list, each entry of which is
rendered as its own list item. -/
theorem delete_guard_and_partial_results :
    (∀ (ac : Option Customer) (conf : String) (out : Except String DeleteResponse)
       (req : DeleteRequest) (res : Option DeleteResult),
       handleDeleteCustomer ac conf out = (some req, res) →
       (∃ c, ac = some c ∧ conf = c.id ∧ req = ⟨c.id, c.id, false⟩) ∧
       (∀ r, out = .ok r → r.success = true →
         res = some ⟨true, "Customer deleted successfully", none, some r.deleted⟩) ∧
       (∀ r, out = .ok r → r.success = false →
         res = some ⟨false, "Delete failed with errors", some r.errors, none⟩ ∧
         ∀ dr, res = some dr → renderedErrorItems dr = r.errors)) ∧
    (∀ (activeId conf : String) (inFlight : Bool),
       deleteButtonEnabled activeId conf inFlight = true → conf = activeId) := by
  constructor
  · intro ac conf out req res h
    cases ac with
    | none => simp [handleDeleteCustomer] at h
    | some c =>
      by_cases hc : conf = c.id
      · cases out with
        | error e =>
          simp [handleDeleteCustomer, hc] at h
          refine ⟨⟨c, rfl, hc, h.1.symm⟩, ?_, ?_⟩
          · intro r hr; exact absurd hr (by simp)
          · intro r hr; exact absurd hr (by simp)
        | ok r =>
          by_cases hs : r.success
          · simp [handleDeleteCustomer, hc, hs] at h
            refine ⟨⟨c, rfl, hc, h.1.symm⟩, ?_, ?_⟩
            · intro r' hr' _
              cases hr'
              rw [← h.2]
            · intro r' hr' hs'
              cases hr'
              rw [hs] at hs'
              exact absurd hs' (by simp)
          · simp [handleDeleteCustomer, hc, hs] at h
            refine ⟨⟨c, rfl, hc, h.1.symm⟩, ?_, ?_⟩
            · intro r' hr' hs'
              cases hr'
              rw [hs'] at hs
              exact absurd rfl hs
            · intro r' hr' _
              cases hr'
              refine ⟨by rw [← h.2], ?_⟩
              intro dr hdr
              rw [← h.2] at hdr
              cases hdr
              rfl
      · simp [handleDeleteCustomer, hc] at h
  · intro activeId conf inFlight h
    unfold deleteButtonEnabled at h
    simp at h
    exact h.1

theorem delete_guard_and_partial_results_witness :
    ((∃ c, (some ⟨"acme"⟩ : Option Customer) = some c ∧ "acme" = c.id ∧
        (⟨"acme", "acme", false⟩ : DeleteRequest) = ⟨c.id, c.id, false⟩) ∧
     (∀ r, (Except.ok ⟨false, [], ["ns fail", "argo fail"]⟩ :
          Except String DeleteResponse) = .ok r → r.success = true →
        (some ⟨false, "Delete failed with errors", some ["ns fail", "argo fail"], none⟩ :
          Option DeleteResult) =
          some ⟨true, "Customer deleted successfully", none, some r.deleted⟩) ∧
     (∀ r, (Except.ok ⟨false, [], ["ns fail", "argo fail"]⟩ :
          Except String DeleteResponse) = .ok r → r.success = false →
        (some ⟨false, "Delete failed with errors", some ["ns fail", "argo fail"], none⟩ :
          Option DeleteResult) =
          some ⟨false, "Delete failed with errors", some r.errors, none⟩ ∧
        ∀ dr, (some ⟨false, "Delete failed with errors", some ["ns fail", "argo fail"], none⟩ :
          Option DeleteResult) = some dr → renderedErrorItems dr = r.errors)) ∧
    "acme" = "acme" :=
  ⟨delete_guard_and_partial_results.1 (some ⟨"acme"⟩) "acme"
      (.ok ⟨false, [], ["ns fail", "argo fail"]⟩) ⟨"acme", "acme", false⟩
      (some ⟨false, "Delete failed with errors", some ["ns fail", "argo fail"], none⟩)
      (by decide),
   delete_guard_and_partial_results.2 "acme" "acme" false (by decide)⟩

/-! ## Theorems about creation-progress monotonicity -/

/-- Updating a status keeps the list length. -/
theorem setStepStatus_length (s : List ProgressStep) (i : Nat) (st : StepStatus) :
    (setStepStatus s i st).length = s.length := by
  induction s generalizing i with
  | nil => rfl
  | cons a rest ih =>
    cases i with
    | zero => rfl
    | succ n => simpa [setStepStatus] using ih n

/-- Updating a status keeps every message. -/
theorem setStepStatus_message (s : List ProgressStep) (i : Nat) (st : StepStatus) :
    ∀ j : Nat, ((setStepStatus s i st)[j]?).map (·.message) = (s[j]?).map (·.message) := by
  induction s generalizing i with
  | nil => intro j; rfl
  | cons a rest ih =>
    intro j
    cases i with
    | zero => cases j <;> simp [setStepStatus]
    | succ n =>
      cases j with
      | zero => simp [setStepStatus]
      | succ m => simpa [setStepStatus] using ih n m

/-- Every single progress operation is append-only: no step disappears and
every existing step keeps its message. -/
theorem stepOKmsg_apply (s : List ProgressStep) (op : ProgressOp) :
    stepOKmsg s (applyProgressOp s op) := by
  cases op with
  | add m st =>
    refine ⟨by simp [applyProgressOp], fun i hi => ?_⟩
    show ((s ++ [⟨m, st⟩])[i]?).map (·.message) = (s[i]?).map (·.message)
    rw [List.getElem?_append, if_pos hi]
  | update i st =>
    refine ⟨?_, fun j _ => setStepStatus_message s i st j⟩
    rw [show applyProgressOp s (.update i st) = setStepStatus s i st from rfl,
      setStepStatus_length]

/-- A `scanl` trace is chained by `R` whenever every step of the fold is. -/
theorem chain'_scanl {α β : Type} {R : β → β → Prop} {f : β → α → β}
    (hf : ∀ s a, R s (f s a)) (b : β) (l : List α) :
    List.Chain' R (List.scanl f b l) := by
  induction l generalizing b with
  | nil => simp [List.scanl_nil]
  | cons a rest ih =>
    rw [List.scanl_cons, List.singleton_append]
    refine List.chain'_cons'.mpr ⟨fun y hy => ?_, ih (f b a)⟩
    have hh : (List.scanl f (f b a) rest).head? = some (f b a) := by
      cases rest <;> simp [List.scanl_nil, List.scanl_cons]
    rw [hh] at hy
    cases hy
    exact hf b a

/-- `chainRel` agrees with `List.Chain'`. -/
theorem chainRel_iff_chain' {α : Type} (R : α → α → Prop) :
    ∀ l : List α, chainRel R l ↔ l.Chain' R
  | [] => by simp [chainRel]
  | [x] => by simp [chainRel]
  | a :: b :: rest => by
    rw [List.chain'_cons]
    exact and_congr Iff.rfl (chainRel_iff_chain' R (b :: rest))

/-- Conjunction of two chain invariants. -/
theorem chain'_conj {α : Type} {P Q : α → α → Prop} {l : List α}
    (hp : List.Chain' P l) (hq : List.Chain' Q l) :
    List.Chain' (fun a b => P a b ∧ Q a b) l := by
  rw [List.chain'_iff_get] at hp hq ⊢
  exact fun i h => ⟨hp i h, hq i h⟩

/-- Status projection commutes with a status update. -/
theorem setStepStatus_map_status (s : List ProgressStep) (i : Nat) (st : StepStatus) :
    (setStepStatus s i st).map (·.status) = setStatusAt (s.map (·.status)) i st := by
  induction s generalizing i with
  | nil => rfl
  | cons a rest ih =>
    cases i with
    | zero => rfl
    | succ n => simpa [setStepStatus, setStatusAt] using ih n

/-- Status projection commutes with a progress operation. -/
theorem applyProgressOp_map_status (s : List ProgressStep) (op : ProgressOp) :
    (applyProgressOp s op).map (·.status) = applyStatusOp (s.map (·.status)) (projOp op) := by
  cases op with
  | add m st => simp [applyProgressOp, applyStatusOp, projOp]
  | update i st => simpa [applyProgressOp, applyStatusOp, projOp] using
      setStepStatus_map_status s i st

/-- Status projection commutes with the whole trace. -/
theorem scanl_map_status (ops : List ProgressOp) :
    ∀ s : List ProgressStep,
      (List.scanl applyProgressOp s ops).map (List.map (·.status)) =
        List.scanl applyStatusOp (s.map (·.status)) (ops.map projOp) := by
  induction ops with
  | nil => intro s; simp [List.scanl_nil]
  | cons op rest ih =>
    intro s
    simp only [List.scanl_cons, List.singleton_append, List.map_cons]
    rw [ih (applyProgressOp s op), applyProgressOp_map_status]

/-- C3: across the progress states a single `handleCreate` run produces
(on its success path, its rejection path, or any interruption of the
success path), consecutive observed states are append-only (no step
removed, messages kept), never regress a `success` step back to `pending`
or `running`, and the index of the highest non-pending step never
decreases. -/
theorem wizard_progress_monotone (repoExists : Bool) (errMsg : String)
    (ops : List ProgressOp) (h : HandleCreateRun repoExists errMsg ops) :
    List.Chain' stepOK (progressStates ops) := by
  have hmsg : List.Chain' stepOKmsg (progressStates ops) :=
    chain'_scanl stepOKmsg_apply [] ops
  have hstat : List.Chain'
      (fun s t => statusOKS (s.map (·.status)) (t.map (·.status)))
      (progressStates ops) := by
    refine (List.chain'_map (R := statusOKS)
      (f := fun l : List ProgressStep => l.map (fun p => p.status))).mp ?_
    show List.Chain' statusOKS ((List.scanl applyProgressOp [] ops).map (List.map (·.status)))
    rw [scanl_map_status ops []]
    rcases h with h | ⟨n, hn, h⟩ | h
    · subst h
      rw [show (happyOps repoExists).map projOp = happyStatusOps from rfl]
      exact (chainRel_iff_chain' statusOKS _).mp (by decide)
    · subst h
      simp only [List.map_append, List.map_take]
      rw [show (happyOps repoExists).map projOp = happyStatusOps from rfl,
        show [errorOp errMsg].map projOp = [StatusOp.add .error] from rfl]
      interval_cases n <;> exact (chainRel_iff_chain' statusOKS _).mp (by decide)
    · subst h
      rw [show (rejectedOps repoExists errMsg).map projOp =
        happyStatusOps.take 3 ++ [.update 1 .error, .add .error] from rfl]
      exact (chainRel_iff_chain' statusOKS _).mp (by decide)
  exact chain'_conj hmsg hstat

theorem wizard_progress_monotone_witness :
    List.Chain' stepOK (progressStates (happyOps false)) :=
  wizard_progress_monotone false "" (happyOps false) (Or.inl rfl)

/-! ## Theorems about the customer id derivation -/

/-- After a collapse pass entered with the run-open flag, the output never
starts with a hyphen. -/
theorem collapse_true_head :
    ∀ l : List Char, ∀ c ∈ (collapseHyphensAux true l).head?, c ≠ '-' := by
  intro l
  induction l with
  | nil => intro c hc; cases hc
  | cons c₀ rest ih =>
    by_cases hc₀ : c₀ = '-'
    · simpa [collapseHyphensAux, hc₀] using ih
    · intro c hc
      simp [collapseHyphensAux, hc₀] at hc
      subst hc
      exact hc₀

/-- The collapse pass leaves no two adjacent hyphens. -/
theorem collapse_noAdj : ∀ (b : Bool) (l : List Char),
    noAdjacentHyphens (collapseHyphensAux b l) := by
  intro b l
  induction l generalizing b with
  | nil => simp [collapseHyphensAux, noAdjacentHyphens]
  | cons c rest ih =>
    by_cases hc : c = '-'
    · cases b with
      | true => simpa [collapseHyphensAux, hc] using ih true
      | false =>
        rw [noAdjacentHyphens]
        simp only [collapseHyphensAux, hc, if_true, if_neg (by simp : ¬False)]
        refine List.chain'_cons'.mpr ⟨fun y hy => ?_, ih true⟩
        exact fun hcontra => collapse_true_head rest y hy hcontra.2
    · rw [noAdjacentHyphens]
      simp only [collapseHyphensAux, hc, if_neg hc]
      refine List.chain'_cons'.mpr ⟨fun y hy => ?_, ih false⟩
      exact fun hcontra => hc hcontra.1

/-- On a list without adjacent hyphens, dropping all leading hyphens is the
same as dropping a single one. -/
theorem dropWhile_eq_dropLeading (l : List Char) (h : noAdjacentHyphens l) :
    l.dropWhile (fun c => c = '-') = dropLeadingHyphen l := by
  cases l with
  | nil => rfl
  | cons c rest =>
    by_cases hc : c = '-'
    · subst hc
      rw [dropLeadingHyphen, if_pos rfl]
      rw [List.dropWhile_cons]
      simp only [decide_eq_true_eq, if_pos rfl]
      cases rest with
      | nil => rfl
      | cons r rs =>
        have hr : r ≠ '-' := by
          have := (List.chain'_cons'.mp h).1 r rfl
          exact fun hh => this ⟨rfl, hh⟩
        rw [List.dropWhile_cons]
        simp [hr]
    · rw [dropLeadingHyphen, if_neg hc]
      rw [List.dropWhile_cons]
      simp [hc]

/-- Dropping one leading hyphen preserves the no-adjacent-hyphens
invariant. -/
theorem noAdj_dropLeading (l : List Char) (h : noAdjacentHyphens l) :
    noAdjacentHyphens (dropLeadingHyphen l) := by
  cases l with
  | nil => exact h
  | cons c rest =>
    rw [dropLeadingHyphen]
    split_ifs with hc
    · exact List.Chain'.tail h
    · exact h

/-- Reversal preserves the no-adjacent-hyphens invariant. -/
theorem noAdj_reverse (l : List Char) (h : noAdjacentHyphens l) :
    noAdjacentHyphens l.reverse := by
  rw [noAdjacentHyphens, List.chain'_reverse]
  exact List.Chain'.imp (fun a b hab => fun hcontra => hab ⟨hcontra.2, hcontra.1⟩) h

/-- On a list without adjacent hyphens, the spec's strip-all-edge-hyphens
agrees with the code's strip-one-each. -/
theorem stripAll_eq_stripEdge (l : List Char) (h : noAdjacentHyphens l) :
    stripAllEdgeHyphens l = stripEdgeHyphens l := by
  rw [stripAllEdgeHyphens, stripEdgeHyphens, dropTrailingHyphen]
  rw [dropWhile_eq_dropLeading l h]
  rw [dropWhile_eq_dropLeading _ (noAdj_reverse _ (noAdj_dropLeading l h))]

/-- C6: the id the wizard derives from a customer name is exactly the
spec's description — lowercase, delete every character that is not a
lowercase letter, digit, whitespace or hyphen, turn each maximal
whitespace run into one hyphen, collapse hyphen runs, and strip the edge
hyphens.  Both sides are pure functions of the name, so the derivation is
deterministic: equal names give equal ids. -/
theorem customer_id_matches_spec (name : String) :
    handleNameChangeId name = specNameId name := by
  rw [handleNameChangeId, specNameId]
  rw [deriveCustomerId, specCustomerId]
  rw [stripAll_eq_stripEdge _ (collapse_noAdj false _)]

end OpenLuffy
